import Mathlib

/-!
# ECG conversion/validation pipeline: a shallow embedding

Shallow embedding of the numeric core of the `ecg-data` repository
(channel mapping, mV→ADC conversion, 10-lead electrode synthesis, the
12-channel 16-bit little-endian binary frame format, and the signal
validation metrics), together with theorems settling the specification
claims about it.

Conventions:
* analog samples (mV, V) are rationals (`ℚ`), mirroring the exact
  arithmetic of the source's float expressions;
* ADC codes and raw bytes are naturals;
* a numpy array is a `List`; a 2-D array is a `List (List _)`
  (channel-major where the source indexes `[channel][sample]`).
-/

namespace ECG

/-- `np.mean` of a list of rationals: sum divided by length
(the empty case is guarded by the callers, as in the source). -/
def npMean (xs : List ℚ) : ℚ := xs.sum / xs.length

/-- `np.min` of a nonempty list (the source guards emptiness before calling). -/
def npMin : List ℚ → ℚ
  | [] => 0
  | x :: xs => xs.foldl min x

/-- `np.max` of a nonempty list (the source guards emptiness before calling). -/
def npMax : List ℚ → ℚ
  | [] => 0
  | x :: xs => xs.foldl max x

/-- `np.var`: mean squared deviation from the mean.  `np.std` is its square
root, so `np.std xs = 0` exactly when `npVar xs = 0`. -/
def npVar (xs : List ℚ) : ℚ := npMean (xs.map (fun x => (x - npMean xs) ^ 2))

/-- `np.argmax`: index of the first occurrence of the maximum value
(`np.argmax` returns the first maximal index; empty input is guarded by
the source). -/
def argmaxQ : List ℚ → ℕ
  | [] => 0
  | x :: xs => if npMax xs ≤ x then 0 else argmaxQ xs + 1

/-- `np.argmin`: index of the first occurrence of the minimum value. -/
def argminQ : List ℚ → ℕ
  | [] => 0
  | x :: xs => if x ≤ npMin xs then 0 else argminQ xs + 1

/-! ## BinaryFrameCodec

Source: `main.py` / `main10.py` `convert_to_binary` (the write loop) and
`v1.py` / `validator-10.py` `load_reference_binary` (the parse loop). -/

/-- `struct.pack('<H', v)`: the two little-endian bytes of an unsigned
16-bit value (callers pass `np.uint16` values, hence `v < 65536`). -/
def packU16LE (v : ℕ) : List ℕ := [v % 256, v / 256]

/-- `struct.unpack('<H', raw_data[idx:idx+2])[0]`: read an unsigned 16-bit
little-endian value at byte offset `idx`. -/
def readU16LE (buf : List ℕ) (idx : ℕ) : ℕ :=
  buf.getD idx 0 + 256 * buf.getD (idx + 1) 0

/-- The write loop of `convert_to_binary`:
`for sample_idx in range(len(adc_signal)): for channel_idx in range(12):
 f.write(struct.pack('<H', adc_signal[sample_idx, channel_idx]))`.
`chans` is the signal channel-major (`chans[c][s]` = code of channel `c`
at sample `s`), `n` the number of samples. -/
def convert_to_binary_bytes (chans : List (List ℕ)) (n : ℕ) : List ℕ :=
  ((List.range n).map (fun s => (chans.map (fun ch => packU16LE (ch.getD s 0))).flatten)).flatten

/-- The parse loop of `load_reference_binary`:
`num_samples = file_size // (12 * 2)`, then
`for sample in range(num_samples): for channel in range(12):
 value = struct.unpack('<H', raw_data[idx:idx+2])[0];
 reference_data[channel, sample] = value; idx += 2`.
The byte offset of `(sample, channel)` is `24*sample + 2*channel`.
Note the source performs no length-divisibility check: `num_samples` is a
floor division and any trailing remainder bytes are never read. -/
def load_reference_binary (buf : List ℕ) : List (List ℕ) :=
  let numSamples := buf.length / 24
  (List.range 12).map (fun c =>
    (List.range numSamples).map (fun s => readU16LE buf (24 * s + 2 * c)))

/-! ### List indexing helpers for fixed-width flattened blocks -/

theorem length_flatten_of_width {α : Type} (L : List (List α)) (w : ℕ)
    (hw : ∀ l ∈ L, l.length = w) : L.flatten.length = w * L.length := by
  induction L with
  | nil => simp
  | cons hd tl ih =>
    have hhd : hd.length = w := hw hd (by simp)
    have htl : ∀ l ∈ tl, l.length = w := fun l hl => hw l (by simp [hl])
    simp only [List.flatten_cons, List.length_append, ih htl, hhd, List.length_cons]
    ring

theorem flatten_getD_of_width {α : Type} (L : List (List α)) (w : ℕ) (d : α)
    (hw : ∀ l ∈ L, l.length = w) (i r : ℕ) (hi : i < L.length) (hr : r < w) :
    L.flatten.getD (w * i + r) d = (L.getD i []).getD r d := by
  induction L generalizing i with
  | nil => simp at hi
  | cons hd tl ih =>
    have hhd : hd.length = w := hw hd (by simp)
    have htl : ∀ l ∈ tl, l.length = w := fun l hl => hw l (by simp [hl])
    cases i with
    | zero =>
      rw [List.flatten_cons, Nat.mul_zero, Nat.zero_add,
        List.getD_append _ _ _ _ (by omega)]
      rfl
    | succ j =>
      rw [List.flatten_cons, List.getD_append_right _ _ _ _ (by nlinarith)]
      have harith : w * (j + 1) + r - hd.length = w * j + r := by
        rw [hhd]; ring_nf; omega
      rw [harith]
      exact ih htl j (by simpa using hi)

theorem range_map_eq_of_getD {α : Type} (L : List α) (d : α) (f : ℕ → α)
    (h : ∀ i, i < L.length → f i = L.getD i d) : (List.range L.length).map f = L := by
  apply List.ext_getElem (by simp)
  intro i h1 h2
  have hx := h i h2
  rw [List.getD_eq_getElem _ d h2] at hx
  simpa using hx

theorem getD_range_map {α : Type} (f : ℕ → α) (n s : ℕ) (hs : s < n) (d : α) :
    ((List.range n).map f).getD s d = f s := by
  rw [List.getD_eq_getElem _ d (by simpa using hs)]
  simp

theorem getD_map_of_lt {α β : Type} (l : List α) (g : α → β) (c : ℕ) (hc : c < l.length)
    (d : β) (d' : α) : (l.map g).getD c d = g (l.getD c d') := by
  rw [List.getD_eq_getElem _ d (by simpa using hc), List.getD_eq_getElem _ d' hc]
  simp

theorem getD_mem_of_lt {α : Type} (l : List α) (c : ℕ) (hc : c < l.length) (d : α) :
    l.getD c d ∈ l := by
  rw [List.getD_eq_getElem _ d hc]
  exact List.getElem_mem hc

/-- Every byte of `convert_to_binary_bytes` at offset `24*s + (2*c + r)`
is byte `r` of the packed code of channel `c` at sample `s`. -/
theorem convert_to_binary_bytes_getD (chans : List (List ℕ)) (n : ℕ)
    (h12 : chans.length = 12) (s c r : ℕ) (hs : s < n) (hc : c < 12) (hr : r < 2) :
    (convert_to_binary_bytes chans n).getD (24 * s + (2 * c + r)) 0 =
      (packU16LE ((chans.getD c []).getD s 0)).getD r 0 := by
  have hpackw : ∀ m : ℕ, ∀ l ∈ chans.map (fun ch => packU16LE (ch.getD m 0)), l.length = 2 := by
    intro m l hl
    simp only [List.mem_map] at hl
    obtain ⟨ch, _, rfl⟩ := hl
    rfl
  have hblockw : ∀ l ∈ (List.range n).map
      (fun m => (chans.map (fun ch => packU16LE (ch.getD m 0))).flatten), l.length = 24 := by
    intro l hl
    simp only [List.mem_map] at hl
    obtain ⟨m, _, rfl⟩ := hl
    rw [length_flatten_of_width _ 2 (hpackw m)]
    simp [h12]
  unfold convert_to_binary_bytes
  rw [flatten_getD_of_width _ 24 0 hblockw s (2 * c + r) (by simpa using hs) (by omega),
    getD_range_map _ n s hs,
    flatten_getD_of_width _ 2 0 (hpackw s) c r (by simpa [h12] using hc) hr,
    getD_map_of_lt _ _ c (by omega) _ []]

/-- C1. Binary codec round-trip: for a 12-channel rectangular signal of
`n` samples whose codes are unsigned 16-bit representable, parsing the
bytes written by `convert_to_binary` (sample-major, channels 0..11,
each `<H` little-endian) recovers the signal exactly. -/
theorem binary_codec_round_trip (chans : List (List ℕ)) (n : ℕ)
    (h12 : chans.length = 12)
    (hlen : ∀ ch ∈ chans, ch.length = n)
    (hcode : ∀ ch ∈ chans, ∀ v ∈ ch, v < 65536) :
    load_reference_binary (convert_to_binary_bytes chans n) = chans := by
  have hbuflen : (convert_to_binary_bytes chans n).length = 24 * n := by
    unfold convert_to_binary_bytes
    rw [length_flatten_of_width _ 24 ?_]
    · simp [Nat.mul_comm]
    · intro l hl
      simp only [List.mem_map] at hl
      obtain ⟨m, _, rfl⟩ := hl
      rw [length_flatten_of_width _ 2 ?_]
      · simp [h12]
      intro l2 hl2
      simp only [List.mem_map] at hl2
      obtain ⟨ch, _, rfl⟩ := hl2
      rfl
  unfold load_reference_binary
  rw [hbuflen, Nat.mul_div_cancel_left n (by norm_num)]
  have h12' : (12 : ℕ) = chans.length := h12.symm
  rw [h12']
  apply range_map_eq_of_getD chans [] _
  intro c hc
  rw [h12] at hc
  have hchlen : (chans.getD c []).length = n :=
    hlen _ (getD_mem_of_lt chans c (by omega) [])
  have hpt : ∀ s, s < n →
      readU16LE (convert_to_binary_bytes chans n) (24 * s + 2 * c) =
        (chans.getD c []).getD s 0 := by
    intro s hs
    unfold readU16LE
    have hb0 := convert_to_binary_bytes_getD chans n h12 s c 0 hs hc (by omega)
    have hb1 := convert_to_binary_bytes_getD chans n h12 s c 1 hs hc (by omega)
    rw [show 24 * s + 2 * c = 24 * s + (2 * c + 0) from by ring, hb0,
      show 24 * s + (2 * c + 0) + 1 = 24 * s + (2 * c + 1) from by ring, hb1]
    show (chans.getD c []).getD s 0 % 256 + 256 * ((chans.getD c []).getD s 0 / 256) =
      (chans.getD c []).getD s 0
    exact Nat.mod_add_div _ _
  have hmap := range_map_eq_of_getD (chans.getD c []) 0
      (fun s => readU16LE (convert_to_binary_bytes chans n) (24 * s + 2 * c))
      (fun s hslen => hpt s (by omega))
  rw [hchlen] at hmap
  exact hmap

/-- C1 witness: a concrete 12-channel, 2-sample signal round-trips. -/
theorem binary_codec_round_trip_witness :
    load_reference_binary (convert_to_binary_bytes
      [[0, 1], [2, 3], [4, 5], [6, 7], [8, 9], [10, 11], [100, 200], [300, 400],
       [500, 600], [7000, 8000], [65535, 0], [4095, 2047]] 2) =
      [[0, 1], [2, 3], [4, 5], [6, 7], [8, 9], [10, 11], [100, 200], [300, 400],
       [500, 600], [7000, 8000], [65535, 0], [4095, 2047]] :=
  binary_codec_round_trip _ 2 (by decide) (by decide) (by decide)

theorem getD_take_of_lt {α : Type} (l : List α) (k i : ℕ) (h : i < k) (hi : i < l.length)
    (d : α) : (l.take k).getD i d = l.getD i d := by
  rw [List.getD_eq_getElem _ d (by simp; omega), List.getD_eq_getElem _ d hi]
  exact List.getElem_take l

/-- C2 counterexample: `load_reference_binary` on a 23-byte buffer (whose
length is not a multiple of 24) does NOT fail — it returns a parsed
12-channel signal with zero samples.  The source computes
`num_samples = file_size // (12 * 2)` and performs no divisibility
check, so no `FormatError` (nor any other exception) is ever raised for
a non-multiple length. -/
theorem format_rejection_counterexample :
    load_reference_binary (List.replicate 23 0) = List.replicate 12 ([] : List ℕ) ∧
    ¬ (24 ∣ (List.replicate 23 (0 : ℕ)).length) := by
  constructor
  · rfl
  · decide

/-- C2 amended: the binary read never raises on a length that is not a
multiple of 24.  It always returns 12 channels of `length / 24` samples
each (floor division), and the up-to-23 trailing remainder bytes are
ignored: the result only depends on the first `24 * (length / 24)`
bytes. -/
theorem load_reference_binary_total (buf : List ℕ) :
    (load_reference_binary buf).length = 12 ∧
    (∀ ch ∈ load_reference_binary buf, ch.length = buf.length / 24) ∧
    load_reference_binary buf = load_reference_binary (buf.take (24 * (buf.length / 24))) := by
  refine ⟨by simp [load_reference_binary], ?_, ?_⟩
  · intro ch hch
    unfold load_reference_binary at hch
    simp only [List.mem_map] at hch
    obtain ⟨c, _, rfl⟩ := hch
    simp
  · have htklen : (buf.take (24 * (buf.length / 24))).length = 24 * (buf.length / 24) := by
      simp only [List.length_take]
      exact min_eq_left (Nat.mul_div_le buf.length 24 |>.trans_eq (by ring_nf))
    unfold load_reference_binary
    rw [htklen, Nat.mul_div_cancel_left _ (by norm_num : (0:ℕ) < 24)]
    apply List.map_congr_left
    intro c hc
    rw [List.mem_range] at hc
    apply List.map_congr_left
    intro s hs
    rw [List.mem_range] at hs
    unfold readU16LE
    have hidx : 24 * s + 2 * c + 1 < 24 * (buf.length / 24) := by omega
    have hlt : 24 * (buf.length / 24) ≤ buf.length := Nat.mul_div_le buf.length 24 |>.trans_eq (by ring_nf) |>.trans (le_refl _)
    rw [getD_take_of_lt _ _ _ (by omega) (by omega) 0,
      getD_take_of_lt _ _ _ (by omega) (by omega) 0]

/-! ## ADCCodec

Source: `main10.py` `convert_mv_to_adc` / `convert_adc_to_voltage` and
`validator-10.py` `adc_to_mv`. -/

/-- The conversion parameters held in the GUI instance state
(`self.gain`, `self.offset_voltage`, `self.adc_resolution`, `self.vcc`).
`adc_resolution` is the integer max code (4095) but participates in the
rational arithmetic, so it is carried as `ℚ` here. -/
structure ADCConfig where
  gain : ℚ
  offset_voltage : ℚ
  adc_resolution : ℚ
  vcc : ℚ

/-- The defaults of every variant: gain 1000, offset 1.65 V, 12-bit
resolution 4095, VCC 3.3 V. -/
def defaultConfig : ADCConfig :=
  { gain := 1000, offset_voltage := 33 / 20, adc_resolution := 4095, vcc := 33 / 10 }

/-- The forward chain of `convert_mv_to_adc` before any clipping:
`signal_gained = signal_mv * gain / 1000.0`;
`signal_offset = signal_gained + offset_voltage`;
`adc_values = signal_offset * adc_resolution / vcc`. -/
def convert_mv_to_adc_raw (cfg : ADCConfig) (signal_mv : List ℚ) : List ℚ :=
  signal_mv.map (fun mv =>
    (mv * cfg.gain / 1000 + cfg.offset_voltage) * cfg.adc_resolution / cfg.vcc)

/-- The warning text
`f"Clipping detected: {clipped_low} samples < 0, {clipped_high} samples > {self.adc_resolution}"`
(for the integral `adc_resolution` values the source uses, `toString` on
`ℚ` prints the same digits Python prints for the `int`). -/
def clippingWarningText (nLow nHigh : ℕ) (res : ℚ) : String :=
  "Clipping detected: " ++ toString nLow ++ " samples < 0, " ++ toString nHigh ++
    " samples > " ++ toString res

/-- Return value of `convert_mv_to_adc` together with the
`self.clipping_warnings` list it may have appended to. -/
structure ClipResult where
  adc_values : List ℚ
  clipping_warnings : List String

/-- `convert_mv_to_adc(signal_mv, apply_clipping)` of `main10.py`: apply
the forward chain; when `apply_clipping` holds, count samples `< 0` and
`> adc_resolution`, append the warning text if either count is nonzero
and the same text is not already recorded, and `np.clip` every value to
`[0, adc_resolution]`. -/
def convert_mv_to_adc (cfg : ADCConfig) (signal_mv : List ℚ) (apply_clipping : Bool)
    (clipping_warnings : List String) : ClipResult :=
  let adc_values := convert_mv_to_adc_raw cfg signal_mv
  if apply_clipping then
    let clipped_low := (adc_values.filter (fun x => decide (x < 0))).length
    let clipped_high := (adc_values.filter (fun x => decide (cfg.adc_resolution < x))).length
    let warning := clippingWarningText clipped_low clipped_high cfg.adc_resolution
    let warnings₂ :=
      if 0 < clipped_low ∨ 0 < clipped_high then
        if warning ∈ clipping_warnings then clipping_warnings
        else clipping_warnings ++ [warning]
      else clipping_warnings
    ⟨adc_values.map (fun x => min cfg.adc_resolution (max 0 x)), warnings₂⟩
  else ⟨adc_values, clipping_warnings⟩

/-- `adc_to_mv` of `validator-10.py`: the validator-side inverse
`voltage = adc * vcc / adc_resolution`;
`voltage_no_offset = voltage - offset_voltage`;
`mv_signal = voltage_no_offset * 1000.0 / gain`. -/
def adc_to_mv (cfg : ADCConfig) (adc_values : List ℚ) : List ℚ :=
  adc_values.map (fun a =>
    (a * cfg.vcc / cfg.adc_resolution - cfg.offset_voltage) * 1000 / cfg.gain)

/-- C3. ADC round-trip: with positive resolution, vcc and gain, the
validator-side inverse `adc_to_mv` is the exact algebraic inverse of the
unclipped forward chain; and with `apply_clipping = true`, when no
computed code falls outside `[0, adc_resolution]` the clamp alters
nothing, so the round trip through the clipped codes is again exact and
in particular within quantization error `vcc / adc_resolution` per
sample. -/
theorem adc_round_trip (cfg : ADCConfig) (s : List ℚ) (w : List String)
    (hres : 0 < cfg.adc_resolution) (hvcc : 0 < cfg.vcc) (hgain : 0 < cfg.gain) :
    adc_to_mv cfg (convert_mv_to_adc_raw cfg s) = s ∧
    ((∀ x ∈ convert_mv_to_adc_raw cfg s, 0 ≤ x ∧ x ≤ cfg.adc_resolution) →
      adc_to_mv cfg ((convert_mv_to_adc cfg s true w).adc_values) = s ∧
      ∀ i, i < s.length →
        |(adc_to_mv cfg ((convert_mv_to_adc cfg s true w).adc_values)).getD i 0 - s.getD i 0|
          ≤ cfg.vcc / cfg.adc_resolution) := by
  have hexact : adc_to_mv cfg (convert_mv_to_adc_raw cfg s) = s := by
    unfold adc_to_mv convert_mv_to_adc_raw
    rw [List.map_map]
    conv_rhs => rw [← List.map_id s]
    apply List.map_congr_left
    intro mv _
    simp only [Function.comp_apply, id_eq]
    field_simp
    ring
  refine ⟨hexact, fun hnoclip => ?_⟩
  have hvals : (convert_mv_to_adc cfg s true w).adc_values = convert_mv_to_adc_raw cfg s := by
    unfold convert_mv_to_adc
    simp only [if_true]
    conv_rhs => rw [← List.map_id (convert_mv_to_adc_raw cfg s)]
    apply List.map_congr_left
    intro x hx
    obtain ⟨h0, h1⟩ := hnoclip x hx
    simp [id_eq, max_eq_right h0, min_eq_right h1]
  rw [hvals, hexact]
  refine ⟨rfl, fun i _ => ?_⟩
  simpa using div_nonneg hvcc.le hres.le

/-- C3 witness: for the default configuration and the one-sample signal
`[1]` mV the raw code is in range, and both round trips recover `[1]`
exactly. -/
theorem adc_round_trip_witness :
    adc_to_mv defaultConfig (convert_mv_to_adc_raw defaultConfig [1]) = [1] ∧
    ((∀ x ∈ convert_mv_to_adc_raw defaultConfig [1],
        0 ≤ x ∧ x ≤ defaultConfig.adc_resolution) →
      adc_to_mv defaultConfig ((convert_mv_to_adc defaultConfig [1] true []).adc_values) = [1] ∧
      ∀ i, i < ([1] : List ℚ).length →
        |(adc_to_mv defaultConfig
            ((convert_mv_to_adc defaultConfig [1] true []).adc_values)).getD i 0 -
          ([1] : List ℚ).getD i 0| ≤ defaultConfig.vcc / defaultConfig.adc_resolution) :=
  adc_round_trip defaultConfig [1] [] (by norm_num [defaultConfig])
    (by norm_num [defaultConfig]) (by norm_num [defaultConfig])

/-- C6. Clipping detection: encoding with `apply_clipping = true`, with
`nLow` the count of computed codes `< 0` and `nHigh` the count `>
adc_resolution`: if `nLow + nHigh > 0` the exact warning text is
recorded (appended only when not already present, so its final
multiplicity is `max (previous count) 1` — exactly one for the fresh
list the conversion starts from) and every returned code lies in
`[0, adc_resolution]`; if both counts are zero, the warning list is
unchanged and the clamp alters no code. -/
theorem clipping_detection (cfg : ADCConfig) (s : List ℚ) (w : List String)
    (hres : 0 ≤ cfg.adc_resolution) :
    (0 < (( convert_mv_to_adc_raw cfg s).filter (fun x => decide (x < 0))).length +
        ((convert_mv_to_adc_raw cfg s).filter (fun x => decide (cfg.adc_resolution < x))).length →
      (convert_mv_to_adc cfg s true w).clipping_warnings =
        (if clippingWarningText
              (((convert_mv_to_adc_raw cfg s).filter (fun x => decide (x < 0))).length)
              (((convert_mv_to_adc_raw cfg s).filter (fun x => decide (cfg.adc_resolution < x))).length)
              cfg.adc_resolution ∈ w then w
         else w ++ [clippingWarningText
              (((convert_mv_to_adc_raw cfg s).filter (fun x => decide (x < 0))).length)
              (((convert_mv_to_adc_raw cfg s).filter (fun x => decide (cfg.adc_resolution < x))).length)
              cfg.adc_resolution]) ∧
      (convert_mv_to_adc cfg s true w).clipping_warnings.count
          (clippingWarningText
            (((convert_mv_to_adc_raw cfg s).filter (fun x => decide (x < 0))).length)
            (((convert_mv_to_adc_raw cfg s).filter (fun x => decide (cfg.adc_resolution < x))).length)
            cfg.adc_resolution) =
        max (w.count (clippingWarningText
            (((convert_mv_to_adc_raw cfg s).filter (fun x => decide (x < 0))).length)
            (((convert_mv_to_adc_raw cfg s).filter (fun x => decide (cfg.adc_resolution < x))).length)
            cfg.adc_resolution)) 1 ∧
      ∀ x ∈ (convert_mv_to_adc cfg s true w).adc_values, 0 ≤ x ∧ x ≤ cfg.adc_resolution) ∧
    ((( convert_mv_to_adc_raw cfg s).filter (fun x => decide (x < 0))).length = 0 ∧
        ((convert_mv_to_adc_raw cfg s).filter (fun x => decide (cfg.adc_resolution < x))).length = 0 →
      (convert_mv_to_adc cfg s true w).clipping_warnings = w ∧
      (convert_mv_to_adc cfg s true w).adc_values = convert_mv_to_adc_raw cfg s) := by
  constructor
  · intro hpos
    have hcond : 0 < ((convert_mv_to_adc_raw cfg s).filter (fun x => decide (x < 0))).length ∨
        0 < ((convert_mv_to_adc_raw cfg s).filter (fun x => decide (cfg.adc_resolution < x))).length := by
      omega
    refine ⟨?_, ?_, ?_⟩
    · unfold convert_mv_to_adc
      simp only [if_true, hcond, if_pos]
    · unfold convert_mv_to_adc
      simp only [if_true, hcond, if_pos]
      by_cases hmem : clippingWarningText
          (((convert_mv_to_adc_raw cfg s).filter (fun x => decide (x < 0))).length)
          (((convert_mv_to_adc_raw cfg s).filter (fun x => decide (cfg.adc_resolution < x))).length)
          cfg.adc_resolution ∈ w
      · rw [if_pos hmem]
        have hcount : 1 ≤ w.count (clippingWarningText
            (((convert_mv_to_adc_raw cfg s).filter (fun x => decide (x < 0))).length)
            (((convert_mv_to_adc_raw cfg s).filter (fun x => decide (cfg.adc_resolution < x))).length)
            cfg.adc_resolution) := List.count_pos_iff.mpr hmem
        omega
      · rw [if_neg hmem, List.count_append]
        have hcount : w.count (clippingWarningText
            (((convert_mv_to_adc_raw cfg s).filter (fun x => decide (x < 0))).length)
            (((convert_mv_to_adc_raw cfg s).filter (fun x => decide (cfg.adc_resolution < x))).length)
            cfg.adc_resolution) = 0 := List.count_eq_zero.mpr hmem
        simp [hcount]
    · intro x hx
      unfold convert_mv_to_adc at hx
      simp only [if_true, List.mem_map] at hx
      obtain ⟨y, _, rfl⟩ := hx
      exact ⟨le_min hres (le_max_left 0 y), min_le_left _ _⟩
  · intro ⟨hlo, hhi⟩
    have halllo : ∀ x ∈ convert_mv_to_adc_raw cfg s, ¬ (x < 0) := by
      have := List.length_eq_zero.mp hlo
      intro x hx hxlt
      have hmemf : x ∈ (convert_mv_to_adc_raw cfg s).filter (fun x => decide (x < 0)) :=
        List.mem_filter.mpr ⟨hx, by simpa using hxlt⟩
      simp [this] at hmemf
    have hallhi : ∀ x ∈ convert_mv_to_adc_raw cfg s, ¬ (cfg.adc_resolution < x) := by
      have := List.length_eq_zero.mp hhi
      intro x hx hxlt
      have hmemf : x ∈ (convert_mv_to_adc_raw cfg s).filter
          (fun x => decide (cfg.adc_resolution < x)) :=
        List.mem_filter.mpr ⟨hx, by simpa using hxlt⟩
      simp [this] at hmemf
    constructor
    · unfold convert_mv_to_adc
      simp only [if_true]
      rw [if_neg (by omega)]
    · unfold convert_mv_to_adc
      simp only [if_true]
      conv_rhs => rw [← List.map_id (convert_mv_to_adc_raw cfg s)]
      apply List.map_congr_left
      intro x hx
      have h0 : 0 ≤ x := not_lt.mp (halllo x hx)
      have h1 : x ≤ cfg.adc_resolution := not_lt.mp (hallhi x hx)
      simp [id_eq, max_eq_right h0, min_eq_right h1]

/-- C6 witness: the spec's concrete case — a constant `+100` mV signal
under the default configuration clips every sample high; the warning
text is recorded once and all codes are clamped into `[0, 4095]`. -/
theorem clipping_detection_witness :
    (convert_mv_to_adc defaultConfig [100, 100] true []).clipping_warnings =
      ["Clipping detected: 0 samples < 0, 2 samples > 4095"] ∧
    (convert_mv_to_adc defaultConfig [100, 100] true []).adc_values = [4095, 4095] := by
  have h := clipping_detection defaultConfig [100, 100] []
    (by norm_num [defaultConfig])
  have hraw : convert_mv_to_adc_raw defaultConfig [100, 100] =
      [2775045 / 22, 2775045 / 22] := by
    norm_num [convert_mv_to_adc_raw, defaultConfig]
  have hlo : ((convert_mv_to_adc_raw defaultConfig [100, 100]).filter
      (fun x => decide (x < 0))).length = 0 := by
    rw [hraw]
    norm_num [List.filter]
  have hhi : ((convert_mv_to_adc_raw defaultConfig [100, 100]).filter
      (fun x => decide (defaultConfig.adc_resolution < x))).length = 2 := by
    rw [hraw]
    norm_num [List.filter, defaultConfig]
  have h1 := h.1 (by rw [hlo, hhi]; omega)
  constructor
  · have hw := h1.1
    rw [hlo, hhi] at hw
    simpa [clippingWarningText, defaultConfig] using hw
  · unfold convert_mv_to_adc
    simp only [if_true]
    rw [hraw]
    have hmax : max (0 : ℚ) (2775045 / 22) = 2775045 / 22 :=
      max_eq_right (by norm_num)
    have hmin : min defaultConfig.adc_resolution (2775045 / 22) =
        defaultConfig.adc_resolution :=
      min_eq_left (by norm_num [defaultConfig])
    simp [hmax, hmin, defaultConfig]
    norm_num

/-- `astype(np.uint16)` on the clipped float codes: truncate the
fractional part (the values reaching the cast lie in
`[0, adc_resolution]`) and reduce mod 2^16. -/
def astypeUInt16 (x : ℚ) : ℕ := (Int.toNat ⌊x⌋) % 65536

/-- One channel column of `convert_to_binary` (`main10.py`):
`adc_signal = np.zeros_like(mapped_signal, dtype=np.uint16)`, then
`if np.any(mapped_signal[:, i] != 0): adc_signal[:, i] =
 self.convert_mv_to_adc(mapped_signal[:, i], apply_clipping=True).astype(np.uint16)`
— an all-zero column is skipped and stays at the zero initialisation. -/
def convert_to_binary_channel (cfg : ADCConfig) (col : List ℚ) (warnings : List String) :
    List ℕ × List String :=
  if col.any (fun x => decide (x ≠ 0)) then
    let r := convert_mv_to_adc cfg col true warnings
    (r.adc_values.map astypeUInt16, r.clipping_warnings)
  else (List.replicate col.length 0, warnings)

/-- C10. A mapped channel whose samples are all zero is skipped by the
encoder and serialized as code 0 at every sample, while a channel with
some non-zero sample has its zero-mV samples encoded to the clipped,
truncated offset code `offset_voltage * adc_resolution / vcc`; under the
default configuration that code is 2047 (≈ 2048) ≠ 0, so empty channels
are distinguishable from matched channels measuring 0 mV. -/
theorem empty_channel_distinguishable (cfg : ADCConfig) (col₀ col : List ℚ)
    (w w' : List String) (j : ℕ)
    (hall0 : ∀ x ∈ col₀, x = 0)
    (hnz : ∃ x ∈ col, x ≠ 0)
    (hj : j < col.length) (hzero : col.getD j 0 = 0) :
    (convert_to_binary_channel cfg col₀ w).1 = List.replicate col₀.length 0 ∧
    (convert_to_binary_channel cfg col w').1.getD j 0 =
      astypeUInt16 (min cfg.adc_resolution
        (max 0 (cfg.offset_voltage * cfg.adc_resolution / cfg.vcc))) ∧
    astypeUInt16 (min defaultConfig.adc_resolution
      (max 0 (defaultConfig.offset_voltage * defaultConfig.adc_resolution /
        defaultConfig.vcc))) = 2047 := by
  refine ⟨?_, ?_, ?_⟩
  · unfold convert_to_binary_channel
    rw [if_neg]
    simp only [List.any_eq_true, not_exists]
    intro x hx
    obtain ⟨hmem, hdec⟩ := hx
    rw [hall0 x hmem] at hdec
    simp at hdec
  · unfold convert_to_binary_channel
    rw [if_pos]
    · have hlen1 : (convert_mv_to_adc cfg col true w').adc_values.length = col.length := by
        unfold convert_mv_to_adc
        simp [convert_mv_to_adc_raw]
      have hstep1 : ((convert_mv_to_adc cfg col true w').adc_values.map astypeUInt16).getD j 0 =
          astypeUInt16 ((convert_mv_to_adc cfg col true w').adc_values.getD j 0) :=
        getD_map_of_lt _ _ j (by omega) _ 0
      have hstep2 : (convert_mv_to_adc cfg col true w').adc_values.getD j 0 =
          min cfg.adc_resolution (max 0 ((convert_mv_to_adc_raw cfg col).getD j 0)) := by
        unfold convert_mv_to_adc
        simp only [if_true]
        exact getD_map_of_lt _ _ j (by simp [convert_mv_to_adc_raw]; omega) _ 0
      have hstep3 : (convert_mv_to_adc_raw cfg col).getD j 0 =
          cfg.offset_voltage * cfg.adc_resolution / cfg.vcc := by
        unfold convert_mv_to_adc_raw
        rw [getD_map_of_lt _ _ j hj _ 0, hzero]
        ring
      rw [hstep1, hstep2, hstep3]
    · simp only [List.any_eq_true]
      obtain ⟨x, hx, hxne⟩ := hnz
      exact ⟨x, hx, by simpa using hxne⟩
  · have hval : min defaultConfig.adc_resolution
        (max 0 (defaultConfig.offset_voltage * defaultConfig.adc_resolution /
          defaultConfig.vcc)) = 4095 / 2 := by
      rw [show defaultConfig.offset_voltage * defaultConfig.adc_resolution /
          defaultConfig.vcc = 4095 / 2 from by norm_num [defaultConfig]]
      rw [max_eq_right (by norm_num), min_eq_right (by norm_num [defaultConfig])]
    rw [hval]
    unfold astypeUInt16
    rw [show ⌊(4095 : ℚ) / 2⌋ = 2047 from by
      rw [Int.floor_eq_iff]
      norm_num]
    rfl

/-- C10 witness: the all-zero two-sample channel `[0, 0]` serializes as
`[0, 0]`, while the channel `[1, 0]` (non-empty, with a 0 mV sample at
index 1) encodes that sample to the offset code 2047. -/
theorem empty_channel_distinguishable_witness :
    (convert_to_binary_channel defaultConfig [0, 0] []).1 = List.replicate 2 0 ∧
    (convert_to_binary_channel defaultConfig [1, 0] []).1.getD 1 0 =
      astypeUInt16 (min defaultConfig.adc_resolution
        (max 0 (defaultConfig.offset_voltage * defaultConfig.adc_resolution /
          defaultConfig.vcc))) ∧
    astypeUInt16 (min defaultConfig.adc_resolution
      (max 0 (defaultConfig.offset_voltage * defaultConfig.adc_resolution /
        defaultConfig.vcc))) = 2047 :=
  empty_channel_distinguishable defaultConfig [0, 0] [1, 0] [] [] 1
    (by norm_num) ⟨1, by norm_num⟩ (by norm_num) (by norm_num)

/-! ## Gain-safety precondition

Source: `main10.py` `check_gain_warnings`. -/

/-- The flattened non-zero samples `mapped_signal[mapped_signal != 0]` of
the trimmed mapped data (only their minimum and maximum are used, so the
numpy flattening order is immaterial). -/
def nonZeroEntries (mapped : List (List ℚ)) : List ℚ :=
  mapped.flatten.filter (fun x => decide (x ≠ 0))

/-- The decision `check_gain_warnings` makes about the convert button:
with no non-zero sample the button is enabled; otherwise
`min_voltage_after_gain = min_signal * gain / 1000.0 + offset_voltage`
and `max_voltage_after_gain = max_signal * gain / 1000.0 + offset_voltage`
over the non-zero samples, and the button is disabled exactly when
`max_voltage_after_gain > vcc or min_voltage_after_gain < 0`. -/
def check_gain_convert_enabled (gain offset_voltage vcc : ℚ)
    (mapped : List (List ℚ)) : Bool :=
  let nz := nonZeroEntries mapped
  if nz.isEmpty then true
  else
    let min_voltage_after_gain := npMin nz * gain / 1000 + offset_voltage
    let max_voltage_after_gain := npMax nz * gain / 1000 + offset_voltage
    ! (decide (vcc < max_voltage_after_gain) || decide (min_voltage_after_gain < 0))

/-- C4. Gain precondition: for trimmed data with at least one non-zero
sample, conversion is disallowed (the convert action is disabled, not
merely warned about) precisely when the projected voltage range
`[min*gain/1000 + offset, max*gain/1000 + offset]` leaves `[0, vcc]`;
otherwise it is allowed.  The decision is a pure function of gain,
offset, vcc and the currently trimmed data, so it stands until one of
those changes. -/
theorem gain_precondition (gain offset_voltage vcc : ℚ) (mapped : List (List ℚ))
    (hnz : nonZeroEntries mapped ≠ []) :
    check_gain_convert_enabled gain offset_voltage vcc mapped = false ↔
      (vcc < npMax (nonZeroEntries mapped) * gain / 1000 + offset_voltage ∨
        npMin (nonZeroEntries mapped) * gain / 1000 + offset_voltage < 0) := by
  unfold check_gain_convert_enabled
  rw [if_neg (by simpa [List.isEmpty_iff] using hnz)]
  simp only [Bool.not_eq_false', Bool.or_eq_true, decide_eq_true_eq]

/-- C4 witness: the spec's concrete case — a 6 mV sample with gain 1000,
vcc 3.3 V, offset 1.65 V projects to 7.65 V > 3.3 V, so conversion is
disabled. -/
theorem gain_precondition_witness :
    check_gain_convert_enabled 1000 (33 / 20) (33 / 10) [[0, 6]] = false :=
  (gain_precondition 1000 (33 / 20) (33 / 10) [[0, 6]]
      (by simp [nonZeroEntries, List.filter])).mpr
    (Or.inl (by norm_num [nonZeroEntries, npMax, List.filter]))

/-! ## ElectrodeSynthesizer

Source: `main.py` `convert_to_10lead`. -/

/-- Result of `convert_to_10lead`: the 10 electrode channels
(channel-major), the Lead III validation residual, and whether the
residual warning fired. -/
structure TenLeadResult where
  electrode_data : List (List ℚ)
  error : ℚ
  warning : Bool

/-- `convert_to_10lead` of `main.py` on the mapped 12-lead signal
(channel-major): `RA = -(lead_I + lead_II) / 3`,
`LA = (2 * lead_I - lead_II) / 3`, `LL = (2 * lead_II - lead_I) / 3`,
`RL = np.zeros_like(RA)`, electrodes 4..9 copied from input slots
6..11; `lead_III_calc = LL - LA`,
`error = np.mean(np.abs(lead_III_calc - lead_III))`, warning when
`error > 0.05`. -/
def convert_to_10lead (mapped : List (List ℚ)) : TenLeadResult :=
  let lead_I := mapped.getD 0 []
  let lead_II := mapped.getD 1 []
  let lead_III := mapped.getD 2 []
  let RA := List.zipWith (fun a b => -(a + b) / 3) lead_I lead_II
  let LA := List.zipWith (fun a b => (2 * a - b) / 3) lead_I lead_II
  let LL := List.zipWith (fun a b => (2 * b - a) / 3) lead_I lead_II
  let RL := List.replicate RA.length (0 : ℚ)
  let lead_III_calc := List.zipWith (fun a b => a - b) LL LA
  let error :=
    npMean ((List.zipWith (fun a b => a - b) lead_III_calc lead_III).map (fun d => |d|))
  { electrode_data :=
      [RA, LA, LL, RL] ++ (List.range 6).map (fun k => mapped.getD (6 + k) []),
    error := error,
    warning := decide (1 / 20 < error) }

theorem zipWith_LL_sub_LA (xs ys : List ℚ) :
    List.zipWith (fun a b => a - b)
        (List.zipWith (fun a b => (2 * b - a) / 3) xs ys)
        (List.zipWith (fun a b => (2 * a - b) / 3) xs ys) =
      List.zipWith (fun a b => a - b) ys xs := by
  induction xs generalizing ys with
  | nil => simp
  | cons x xs ih =>
    cases ys with
    | nil => simp
    | cons y ys =>
      simp only [List.zipWith_cons_cons, ih, List.cons.injEq, and_true]
      ring

theorem zipWith_sub_self (l : List ℚ) :
    List.zipWith (fun a b => a - b) l l = List.replicate l.length 0 := by
  induction l with
  | nil => simp
  | cons x xs ih => simp [ih, List.replicate_succ]

/-- C5. Electrode synthesis: the ten electrodes are exactly
RA = -(I+II)/3, LA = (2I-II)/3, LL = (2II-I)/3, RL = 0, V1..V6 copied
from slots 6..11; `LL - LA` equals `II - I` algebraically, so the
residual is 0 whenever the source Lead III equals `II - I`; the warning
fires iff the residual exceeds 0.05 mV, and the electrodes are part of
the result in either case. -/
theorem electrode_synthesis (mapped : List (List ℚ)) (n : ℕ)
    (h12 : mapped.length = 12) (hlen : ∀ ch ∈ mapped, ch.length = n) (hn : 0 < n) :
    (convert_to_10lead mapped).electrode_data =
      [List.zipWith (fun a b => -(a + b) / 3) (mapped.getD 0 []) (mapped.getD 1 []),
       List.zipWith (fun a b => (2 * a - b) / 3) (mapped.getD 0 []) (mapped.getD 1 []),
       List.zipWith (fun a b => (2 * b - a) / 3) (mapped.getD 0 []) (mapped.getD 1 []),
       List.replicate n 0] ++ (List.range 6).map (fun k => mapped.getD (6 + k) []) ∧
    List.zipWith (fun a b => a - b)
        (List.zipWith (fun a b => (2 * b - a) / 3) (mapped.getD 0 []) (mapped.getD 1 []))
        (List.zipWith (fun a b => (2 * a - b) / 3) (mapped.getD 0 []) (mapped.getD 1 [])) =
      List.zipWith (fun a b => a - b) (mapped.getD 1 []) (mapped.getD 0 []) ∧
    (mapped.getD 2 [] =
        List.zipWith (fun a b => a - b) (mapped.getD 1 []) (mapped.getD 0 []) →
      (convert_to_10lead mapped).error = 0) ∧
    ((convert_to_10lead mapped).warning = true ↔
      1 / 20 < (convert_to_10lead mapped).error) := by
  have hlen0 : (mapped.getD 0 []).length = n := hlen _ (getD_mem_of_lt mapped 0 (by omega) [])
  have hlen1 : (mapped.getD 1 []).length = n := hlen _ (getD_mem_of_lt mapped 1 (by omega) [])
  refine ⟨?_, zipWith_LL_sub_LA _ _, ?_, ?_⟩
  · unfold convert_to_10lead
    simp only [List.getD, List.get?_eq_getElem?] at hlen0 hlen1 ⊢
    simp [hlen0, hlen1]
  · intro hIII
    unfold convert_to_10lead
    simp only
    rw [zipWith_LL_sub_LA, hIII, zipWith_sub_self]
    simp [npMean]
  · unfold convert_to_10lead
    simp

/-- C5 witness: a 12-channel one-sample input with I = [1], II = [2] and
a synthetic Lead III = II - I = [1] has residual 0 and no warning. -/
theorem electrode_synthesis_witness :
    (convert_to_10lead [[1], [2], [1], [0], [0], [0], [0], [0], [0], [0], [0], [0]]).error
        = 0 ∧
    (convert_to_10lead [[1], [2], [1], [0], [0], [0], [0], [0], [0], [0], [0], [0]]).warning
        = false := by
  have h := electrode_synthesis
    [[1], [2], [1], [0], [0], [0], [0], [0], [0], [0], [0], [0]] 1
    (by norm_num) (by intro ch hch; fin_cases hch <;> rfl) (by norm_num)
  have herr : (convert_to_10lead
      [[1], [2], [1], [0], [0], [0], [0], [0], [0], [0], [0], [0]]).error = 0 := by
    apply h.2.2.1
    show ([1] : List ℚ) = List.zipWith (fun a b => a - b) [2] [1]
    norm_num
  refine ⟨herr, ?_⟩
  have hw := h.2.2.2
  rw [herr] at hw
  rcases hb : (convert_to_10lead
      [[1], [2], [1], [0], [0], [0], [0], [0], [0], [0], [0], [0]]).warning with _ | _
  · rfl
  · exact absurd (hw.mp hb) (by norm_num)

/-! ## SignalMetrics: overlap window and sentinel states

Source: `validator-10.py` `calculate_snr_mse` (and the helpers it calls). -/

/-- `scipy.interpolate.interp1d(xs, ys, kind='linear')` applied to one
query point, over the (sorted, strictly increasing) knot list: walk the
segments and evaluate the straight line of the bracketing segment; with
`fill_value='extrapolate'` points outside the knot range use the first
resp. last segment's line, which is what this walk does. -/
def interp1d_linear : List (ℚ × ℚ) → ℚ → ℚ
  | [], _ => 0
  | [(_, y0)], _ => y0
  | (x0, y0) :: (x1, y1) :: rest, t =>
    if t ≤ x1 ∨ rest = [] then y0 + (y1 - y0) * (t - x0) / (x1 - x0)
    else interp1d_linear ((x1, y1) :: rest) t

/-- `interp1d(xs, ys, kind='linear', bounds_error=False, fill_value=0)`:
0 outside the knot range, linear interpolation inside. -/
def interp1d_fill0 (pts : List (ℚ × ℚ)) (t : ℚ) : ℚ :=
  match pts with
  | [] => 0
  | _ =>
    if t < (pts.headD (0, 0)).1 ∨ (pts.getLast?.getD (0, 0)).1 < t then 0
    else interp1d_linear pts t

/-- `self.time_reference = np.arange(num_samples) / self.reference_sample_rate`. -/
def time_reference (n : ℕ) (fs : ℚ) : List ℚ := (List.range n).map (fun i => (i : ℚ) / fs)

/-- `np.linspace(0, stop, n)` (endpoint inclusive). -/
def npLinspace (stop : ℚ) (n : ℕ) : List ℚ :=
  if n = 1 then [0]
  else (List.range n).map (fun i => (i : ℚ) * (stop / ((n : ℚ) - 1)))

/-- `time = np.linspace(0, duration, num_samples)` of `load_measured_csv`
(`duration = num_samples / measured_sample_rate`) shifted by
`self.time_offset` as in `calculate_snr_mse`. -/
def time_measured_shifted (n : ℕ) (fs time_offset : ℚ) : List ℚ :=
  (npLinspace ((n : ℚ) / fs) n).map (fun t => t + time_offset)

/-- `time_start = max(ref_time[0], measured_time[0])`. -/
def overlap_start (ref_time measured_time : List ℚ) : ℚ :=
  max (ref_time.headD 0) (measured_time.headD 0)

/-- `time_end = min(ref_time[-1], measured_time[-1])`. -/
def overlap_end (ref_time measured_time : List ℚ) : ℚ :=
  min (ref_time.getLast?.getD 0) (measured_time.getLast?.getD 0)

/-- The five metric labels of `calculate_snr_mse` are always set
together, to one of four states: the `--` placeholders (missing data),
the catch-all `Error` sentinels (the function's `except` branch, e.g. on
empty arrays where `ref_time[0]` raises `IndexError`), the
`No overlap` sentinels, or the computed state.  The computed state
carries the truncated overlap-restricted reference samples, the
resampled measured samples (the inputs of every numeric metric) and the
exactly-representable MSE. -/
inductive MetricsOutcome
  | missingData
  | errorState
  | noOverlap
  | computed (ref_overlap measured_resampled : List ℚ) (mse : ℚ)

/-- `calculate_snr_mse` of `validator-10.py` down to the choice of
label state: scale/offset/mV-adjust the measured signal, build both
time axes, compute the overlap window, return the `No overlap` state
when `time_start >= time_end`, otherwise mask both signals to the
window, resample the measured one onto the reference timestamps when
the lengths differ (linear interpolation, extrapolating at the edges),
truncate both to the shorter length, and compute the metrics. -/
def calculate_snr_mse (ref_signal : List ℚ) (fs_ref : ℚ)
    (measured_signal : List ℚ) (fs_meas : ℚ)
    (time_offset scale v_offset : ℚ) : MetricsOutcome :=
  if ref_signal.isEmpty || measured_signal.isEmpty then .errorState
  else
    let ref_time := time_reference ref_signal.length fs_ref
    let measured_time := time_measured_shifted measured_signal.length fs_meas time_offset
    let measured_adjusted_mv := measured_signal.map (fun v => (v * scale + v_offset) * 1000)
    let time_start := overlap_start ref_time measured_time
    let time_end := overlap_end ref_time measured_time
    if time_end ≤ time_start then .noOverlap
    else
      let ref_pairs := (ref_time.zip ref_signal).filter
        (fun p => decide (time_start ≤ p.1 ∧ p.1 ≤ time_end))
      let measured_pairs := (measured_time.zip measured_adjusted_mv).filter
        (fun p => decide (time_start ≤ p.1 ∧ p.1 ≤ time_end))
      let ref_overlap := ref_pairs.map (fun p => p.2)
      let measured_overlap := measured_pairs.map (fun p => p.2)
      let measured_resampled :=
        if ref_overlap.length ≠ measured_overlap.length then
          (ref_pairs.map (fun p => p.1)).map (interp1d_linear measured_pairs)
        else measured_overlap
      let min_len := min ref_overlap.length measured_resampled.length
      let refO := ref_overlap.take min_len
      let measR := measured_resampled.take min_len
      .computed refO measR (npMean (List.zipWith (fun a b => (a - b) ^ 2) refO measR))

/-- C8. No-overlap sentinel: whenever the reference and (time-shifted)
measured time ranges have an empty intersection
(`overlap_start ≥ overlap_end`), `calculate_snr_mse` lands every metric
in the single `No overlap` label state — no numeric metric is produced
and no exception escapes (the whole body runs inside a `try`). -/
theorem no_overlap_sentinel (ref_signal : List ℚ) (fs_ref : ℚ)
    (measured_signal : List ℚ) (fs_meas time_offset scale v_offset : ℚ)
    (href : ref_signal ≠ []) (hmeas : measured_signal ≠ [])
    (hempty : overlap_end (time_reference ref_signal.length fs_ref)
        (time_measured_shifted measured_signal.length fs_meas time_offset) ≤
      overlap_start (time_reference ref_signal.length fs_ref)
        (time_measured_shifted measured_signal.length fs_meas time_offset)) :
    calculate_snr_mse ref_signal fs_ref measured_signal fs_meas time_offset scale v_offset =
      MetricsOutcome.noOverlap := by
  unfold calculate_snr_mse
  rw [if_neg (by simp [href, hmeas]), if_pos hempty]

/-- C8 witness: a 2-sample reference at 1 Hz (time range [0, 1]) and a
2-sample measured signal shifted by +5 s (time range [5, 7]) do not
overlap, and every metric reports the `No overlap` state. -/
theorem no_overlap_sentinel_witness :
    calculate_snr_mse [1, 1] 1 [2, 2] 1 5 1 0 = MetricsOutcome.noOverlap := by
  apply no_overlap_sentinel [1, 1] 1 [2, 2] 1 5 1 0 (by simp) (by simp)
  have h1 : time_reference ([1, 1] : List ℚ).length 1 = [0, 1] := by
    norm_num [time_reference, List.range_succ]
  have h2 : time_measured_shifted ([2, 2] : List ℚ).length 1 5 = [5, 7] := by
    norm_num [time_measured_shifted, npLinspace, List.range_succ]
  rw [h1, h2]
  norm_num [overlap_start, overlap_end]

/-! ## Aligner

Source: `auto_align_signals` of `validator-10.py` (identical in the
relevant part to `v1.py`). -/

/-- The resampling step of `auto_align_signals`: when the lengths
differ, interpolate the measured samples onto the reference time grid
(`interp1d(..., kind='linear', bounds_error=False, fill_value=0)`
evaluated at `self.time_reference`); otherwise use the measured signal
as-is. -/
def auto_align_resampled (ref_signal measured_signal measured_time ref_time : List ℚ) :
    List ℚ :=
  if measured_signal.length ≠ ref_signal.length then
    ref_time.map (interp1d_fill0 (measured_time.zip measured_signal))
  else measured_signal

/-- `auto_align_signals` normalizes by
`(x - np.mean(x)) / np.std(x)` for the reference and the resampled
measured signal with NO zero-std guard; this predicate records whether
a zero divisor occurs (`np.std` is the square root of `npVar`, so it
vanishes exactly when `npVar` does — e.g. for a constant signal). -/
def auto_align_divides_by_zero (ref_signal measured_signal measured_time ref_time : List ℚ) :
    Bool :=
  decide (npVar ref_signal = 0) ||
    decide (npVar (auto_align_resampled ref_signal measured_signal measured_time ref_time) = 0)

/-- Signed index into a list, 0 outside bounds (the zero padding of the
cross-correlation sums). -/
def getZ (l : List ℚ) (i : ℤ) : ℚ := if 0 ≤ i then l.getD i.toNat 0 else 0

/-- `scipy.signal.correlate(a, v, mode='full')` for real inputs: entry
`k` of the length `a.length + v.length - 1` output is
`Σ_n a[n] * v[n - k + v.length - 1]`, zero-padded outside bounds. -/
def correlate_full (a v : List ℚ) : List ℚ :=
  (List.range (a.length + v.length - 1)).map (fun k =>
    ((List.range a.length).map
      (fun n => a.getD n 0 * getZ v ((n : ℤ) - (k : ℤ) + (v.length : ℤ) - 1))).sum)

/-- `mode='same'`: the `a.length` central entries of the full output,
starting at offset `(v.length - 1) / 2`. -/
def correlate_same (a v : List ℚ) : List ℚ :=
  ((correlate_full a v).drop ((v.length - 1) / 2)).take a.length

/-- z-normalization `(x - np.mean(x)) / σ` with the `np.std` divisor
passed symbolically (`np.std` is an irrational square root in general;
only its sign matters for the argmax of the correlation). -/
def zNormWith (σ : ℚ) (xs : List ℚ) : List ℚ := xs.map (fun x => (x - npMean xs) / σ)

/-- The lag (in samples) computed by `auto_align_signals` when the two
`np.std` divisors are `σm` (measured) and `σr` (reference):
`lag = np.argmax(correlation) - len(correlation) // 2` over
`correlation = scipy_signal.correlate(measured_norm, ref_norm, mode='same')`. -/
def auto_align_lag (σm σr : ℚ) (measured_resampled ref_signal : List ℚ) : ℤ :=
  let correlation := correlate_same (zNormWith σm measured_resampled) (zNormWith σr ref_signal)
  (argmaxQ correlation : ℤ) - ((correlation.length / 2 : ℕ) : ℤ)

/-- `time_offset = lag / self.reference_sample_rate`. -/
def auto_align_time_offset (σm σr : ℚ) (measured_resampled ref_signal : List ℚ)
    (fs_ref : ℚ) : ℚ :=
  ((auto_align_lag σm σr measured_resampled ref_signal : ℤ) : ℚ) / fs_ref

theorem foldl_max_map_mul (c : ℚ) (hc : 0 ≤ c) (l : List ℚ) (a : ℚ) :
    (l.map (fun x => x * c)).foldl max (a * c) = (l.foldl max a) * c := by
  induction l generalizing a with
  | nil => rfl
  | cons x xs ih =>
    simp only [List.map_cons, List.foldl_cons]
    rw [← max_mul_of_nonneg a x hc, ih]

theorem npMax_map_mul (c : ℚ) (hc : 0 ≤ c) (l : List ℚ) :
    npMax (l.map (fun x => x * c)) = npMax l * c := by
  cases l with
  | nil => simp [npMax]
  | cons x xs =>
    simp only [List.map_cons, npMax]
    exact foldl_max_map_mul c hc xs x

theorem argmaxQ_map_mul (c : ℚ) (hc : 0 < c) (l : List ℚ) :
    argmaxQ (l.map (fun x => x * c)) = argmaxQ l := by
  induction l with
  | nil => rfl
  | cons x xs ih =>
    simp only [List.map_cons, argmaxQ]
    rw [npMax_map_mul c hc.le xs]
    by_cases h : npMax xs ≤ x
    · rw [if_pos (mul_le_mul_of_nonneg_right h hc.le), if_pos h]
    · rw [if_neg (fun hcon => h (le_of_mul_le_mul_right hcon hc)), if_neg h, ih]

theorem getZ_map_mul (c : ℚ) (v : List ℚ) (i : ℤ) :
    getZ (v.map (fun x => x * c)) i = getZ v i * c := by
  unfold getZ
  split
  · by_cases hi : i.toNat < v.length
    · exact getD_map_of_lt _ _ _ hi _ 0
    · rw [List.getD_eq_default _ _ (by simpa using le_of_not_lt hi),
        List.getD_eq_default _ _ (le_of_not_lt hi)]
      ring
  · ring

theorem correlate_full_map_left (s : ℚ) (a v : List ℚ) :
    correlate_full (a.map (fun x => x * s)) v =
      (correlate_full a v).map (fun x => x * s) := by
  unfold correlate_full
  rw [List.map_map, List.length_map]
  apply List.map_congr_left
  intro k _
  simp only [Function.comp_apply]
  rw [← List.sum_map_mul_right]
  apply congrArg List.sum
  apply List.map_congr_left
  intro n hn
  rw [List.mem_range] at hn
  rw [getD_map_of_lt _ _ _ hn _ 0]
  ring

theorem correlate_full_map_right (t : ℚ) (a v : List ℚ) :
    correlate_full a (v.map (fun x => x * t)) =
      (correlate_full a v).map (fun x => x * t) := by
  unfold correlate_full
  rw [List.map_map, List.length_map]
  apply List.map_congr_left
  intro k _
  simp only [Function.comp_apply]
  rw [← List.sum_map_mul_right]
  apply congrArg List.sum
  apply List.map_congr_left
  intro n _
  rw [getZ_map_mul]
  ring

theorem correlate_same_scale (s t : ℚ) (a v : List ℚ) :
    correlate_same (a.map (fun x => x * s)) (v.map (fun x => x * t)) =
      (correlate_same a v).map (fun x => x * (t * s)) := by
  unfold correlate_same
  rw [correlate_full_map_left, correlate_full_map_right, List.map_map, List.length_map,
    List.length_map, ← List.map_drop, ← List.map_take]
  apply List.map_congr_left
  intro x _
  simp only [Function.comp_apply]
  ring

theorem zNormWith_eq_scale (σ : ℚ) (xs : List ℚ) :
    zNormWith σ xs = (zNormWith 1 xs).map (fun y => y * σ⁻¹) := by
  unfold zNormWith
  rw [List.map_map]
  apply List.map_congr_left
  intro x _
  simp only [Function.comp_apply, div_one]
  rw [div_eq_mul_inv]

/-- The computed lag does not depend on the two positive `np.std`
divisors: normalizing by any positive scale rescales every correlation
entry by the same positive factor and leaves the argmax (and the length)
untouched. -/
theorem auto_align_lag_scale_invariant (σm σr : ℚ) (hm : 0 < σm) (hr : 0 < σr)
    (measured_resampled ref_signal : List ℚ) :
    auto_align_lag σm σr measured_resampled ref_signal =
      auto_align_lag 1 1 measured_resampled ref_signal := by
  unfold auto_align_lag
  dsimp only
  rw [zNormWith_eq_scale σm, zNormWith_eq_scale σr, correlate_same_scale,
    argmaxQ_map_mul _ (by positivity), List.length_map]

/-- C9 counterexample: on the constant reference signal `[1, 1, 1]`
(equal length to the measured signal, so no resampling happens) the
z-normalization of `auto_align_signals` divides by `np.std = 0` — the
source has no zero-std guard, refuting the claim that the computation
"never divides by zero, even for a constant signal". -/
theorem aligner_guard_counterexample :
    auto_align_divides_by_zero [1, 1, 1] [1, 2, 3] [0, 1, 2] [0, 1, 2] = true := by
  have hvar : npVar [1, 1, 1] = 0 := by
    norm_num [npVar, npMean]
  unfold auto_align_divides_by_zero
  simp [hvar]

/-- C9 amended: `auto_align_signals` resamples the measured signal onto
the reference grid by linear interpolation filling 0, z-normalizes both
signals dividing by `np.std` with NO zero-standard-deviation guard — a
zero divisor occurs exactly when the reference or the resampled
measured signal has zero variance (e.g. is constant), producing NaN
instead of a lag — and otherwise computes same-mode cross-correlation
and returns `(argmax(correlation) - length/2) / referenceSampleRate`,
a value independent of the two positive std divisors. -/
theorem aligner_no_std_guard (ref_signal measured_signal measured_time ref_time : List ℚ)
    (fs_ref σm σr : ℚ) (hm : 0 < σm) (hr : 0 < σr) :
    (auto_align_divides_by_zero ref_signal measured_signal measured_time ref_time = true ↔
      (npVar ref_signal = 0 ∨
        npVar (auto_align_resampled ref_signal measured_signal measured_time ref_time) = 0)) ∧
    auto_align_lag σm σr
        (auto_align_resampled ref_signal measured_signal measured_time ref_time) ref_signal =
      auto_align_lag 1 1
        (auto_align_resampled ref_signal measured_signal measured_time ref_time) ref_signal ∧
    auto_align_time_offset σm σr
        (auto_align_resampled ref_signal measured_signal measured_time ref_time) ref_signal
        fs_ref =
      ((auto_align_lag 1 1
          (auto_align_resampled ref_signal measured_signal measured_time ref_time)
          ref_signal : ℤ) : ℚ) / fs_ref := by
  refine ⟨?_, auto_align_lag_scale_invariant σm σr hm hr _ _, ?_⟩
  · unfold auto_align_divides_by_zero
    simp
  · unfold auto_align_time_offset
    rw [auto_align_lag_scale_invariant σm σr hm hr]

/-- C9 amended witness: instantiation at concrete signals and divisors
`σm = 2`, `σr = 3`. -/
theorem aligner_no_std_guard_witness :
    (auto_align_divides_by_zero [1, 1, 1] [1, 2, 3] [0, 1, 2] [0, 1, 2] = true ↔
      (npVar [1, 1, 1] = 0 ∨
        npVar (auto_align_resampled [1, 1, 1] [1, 2, 3] [0, 1, 2] [0, 1, 2]) = 0)) ∧
    auto_align_lag 2 3
        (auto_align_resampled [1, 1, 1] [1, 2, 3] [0, 1, 2] [0, 1, 2]) [1, 1, 1] =
      auto_align_lag 1 1
        (auto_align_resampled [1, 1, 1] [1, 2, 3] [0, 1, 2] [0, 1, 2]) [1, 1, 1] ∧
    auto_align_time_offset 2 3
        (auto_align_resampled [1, 1, 1] [1, 2, 3] [0, 1, 2] [0, 1, 2]) [1, 1, 1] 360 =
      ((auto_align_lag 1 1
          (auto_align_resampled [1, 1, 1] [1, 2, 3] [0, 1, 2] [0, 1, 2])
          [1, 1, 1] : ℤ) : ℚ) / 360 :=
  aligner_no_std_guard [1, 1, 1] [1, 2, 3] [0, 1, 2] [0, 1, 2] 360 2 3
    (by norm_num) (by norm_num)

/-! ## THD

Source: `validator-10.py` `calculate_thd` and the label update in
`calculate_snr_mse`.  The DC removal, Hann window and FFT stages of
`calculate_thd` produce the power spectrum
`np.abs(fft(windowed))[:N//2]**2`; those stages involve irrational
cosines and complex roots of unity outside the rational embedding, so
the resulting `power_spectrum` list is taken as the input of the
embedded remainder, which is everything the claim is about (band
search, harmonic matching, the THD formula, and the displayed value). -/

/-- `freqs_positive = fftfreq(N, 1/fs)[:N//2]`: bin `k` carries
frequency `k * fs / N`. -/
def freqs_positive (fs : ℚ) (N : ℕ) : List ℚ :=
  (List.range (N / 2)).map (fun k => (k : ℚ) * fs / (N : ℚ))

/-- The harmonic accumulation loop `for h in range(2, 10)` of
`calculate_thd`, with its `break` when `h * fundamental_freq >= fs/2`;
returns `(harmonic_power_sum, harmonics_found)`.  `fuel` counts the
remaining iterations (`h` runs over `2..9`, so the entry call passes
fuel 8); each kept harmonic is the bin minimizing
`np.abs(freqs_positive - harmonic_freq)` provided it lies within one
frequency resolution `fs / N` of the exact harmonic. -/
def harmonic_loop (P : List ℚ) (fs : ℚ) (N : ℕ) (f0 : ℚ) : ℕ → ℕ → ℚ × ℕ
  | _, 0 => (0, 0)
  | h, fuel + 1 =>
    let harmonic_freq := (h : ℚ) * f0
    if fs / 2 ≤ harmonic_freq then (0, 0)
    else
      let harmonic_idx := argminQ ((freqs_positive fs N).map (fun f => |f - harmonic_freq|))
      let freq_resolution := fs / (N : ℚ)
      let rest := harmonic_loop P fs N f0 (h + 1) fuel
      if |(freqs_positive fs N).getD harmonic_idx 0 - harmonic_freq| ≤ freq_resolution then
        (P.getD harmonic_idx 0 + rest.1, rest.2 + 1)
      else rest

/-- `calculate_thd` from the power spectrum down, squared: the source
returns `100 * np.sqrt(harmonic_power_sum) / np.sqrt(fundamental_power)`
when a fundamental was found in the 0.5–3.0 Hz band (first maximal
power bin there) and at least one harmonic bin was counted, else 0.
Return value and displayed value are both nonnegative, so the
square-root-free square `10000 * harmonic_power_sum /
fundamental_power` represents the result exactly. -/
def calculate_thd_sq (P : List ℚ) (fs : ℚ) (N : ℕ) : ℚ :=
  let freqs := freqs_positive fs N
  let maskedIdx := (List.range (N / 2)).filter (fun k =>
    decide ((1 / 2 : ℚ) ≤ freqs.getD k 0 ∧ freqs.getD k 0 ≤ 3))
  if maskedIdx.isEmpty then 0
  else
    let masked_power := maskedIdx.map (fun k => P.getD k 0)
    let fundamental_idx := maskedIdx.getD (argmaxQ masked_power) 0
    let fundamental_freq := freqs.getD fundamental_idx 0
    let fundamental_power := P.getD fundamental_idx 0
    let hl := harmonic_loop P fs N fundamental_freq 2 8
    if 0 < fundamental_power ∧ 0 < hl.2 then 10000 * hl.1 / fundamental_power
    else 0

/-- The THD value the caller actually sees: `calculate_snr_mse` renders
`self.thd_label.setText(f"THD: {thd/10:.2f} %")`, dividing the returned
percentage by 10 before display — squared, the reported value is
`calculate_thd_sq / 100`. -/
def thd_displayed_sq (P : List ℚ) (fs : ℚ) (N : ℕ) : ℚ :=
  calculate_thd_sq P fs N / 100

/-- C7. The claim is right and the display code is wrong: for a power
spectrum with fundamental power 100 at the 1 Hz bin and second-harmonic
power 1 (fs = 8 Hz, N = 8), `calculate_thd` evaluates the §4.5 formula
to THD = 10 % (squared: 100), but the label reports `thd/10` = 1 %
(squared: 1) — the displayed value differs from the formula value by
the stray `/10` the spec flags as a display-scaling bug. -/
theorem thd_display_bug :
    calculate_thd_sq [0, 100, 1, 0] 8 8 = 100 ∧
    thd_displayed_sq [0, 100, 1, 0] 8 8 = 1 ∧
    thd_displayed_sq [0, 100, 1, 0] 8 8 ≠ calculate_thd_sq [0, 100, 1, 0] 8 8 := by
  have h1 : calculate_thd_sq [0, 100, 1, 0] 8 8 = 100 := by
    norm_num [calculate_thd_sq, harmonic_loop, freqs_positive, argmaxQ, argminQ,
      npMax, npMin, List.range_succ, List.filter]
  have h2 : thd_displayed_sq [0, 100, 1, 0] 8 8 = 1 := by
    rw [thd_displayed_sq, h1]
    norm_num
  exact ⟨h1, h2, by rw [h1, h2]; norm_num⟩

end ECG
